import Mathlib

/-!
Verification development for the ClawWallet privacy module
(`src/api/src/privacy.ts`).

The module implements stealth addresses over ed25519 together with
XChaCha20-Poly1305 payload encryption, delegating all curve arithmetic,
hashing and authenticated encryption to the noble libraries.  Those
primitives are modelled here as a bundled black box (`Prims`) carrying
exactly the operations the source invokes together with the algebraic
laws the libraries guarantee (lossless point encoding, scalar
multiplication as a monoid action, AEAD round trip, UTF-8 round trip).
Everything the source itself computes — hex codecs, big-endian and
little-endian integer conversion, the ed25519 scalar clamping performed
by `getPublicKey`/`getSharedSecret`, string slicing, the registry map —
is modelled concretely.

Randomness (`randomBytes`) is modelled by passing the drawn bytes as
explicit arguments.  JavaScript exceptions are modelled with
`Except String`; a `try/catch` returning `false` becomes a `match` on
the `Except` value.
-/

/-! ### Bytes, hex strings and integer conversions -/

/-- Hex digit value of a character, accepting both cases
(`Number.parseInt(_, 16)` / noble `hexToBytes` semantics). -/
def hexDigitVal (c : Char) : Option Nat :=
  if ('0') ≤ c ∧ c ≤ ('9') then some (c.toNat - 48)
  else if ('a') ≤ c ∧ c ≤ ('f') then some (c.toNat - 87)
  else if ('A') ≤ c ∧ c ≤ ('F') then some (c.toNat - 55)
  else none

/-- noble `hexToBytes`: fails (throws) on odd length or non-hex characters. -/
def hexToBytesM : List Char → Option (List Nat)
  | [] => some []
  | [_] => none
  | c1 :: c2 :: rest => do
    let h ← hexDigitVal c1
    let l ← hexDigitVal c2
    let bs ← hexToBytesM rest
    pure ((16 * h + l) :: bs)

/-- The lowercase hex digit of a value below 16. -/
def hexDigitChar (d : Nat) : Char :=
  if d < 10 then Char.ofNat (48 + d) else Char.ofNat (87 + d)

/-- Two lowercase hex characters of a byte. -/
def byteToHex (b : Nat) : List Char :=
  [hexDigitChar (b / 16), hexDigitChar (b % 16)]

/-- noble `bytesToHex` (lowercase). -/
def bytesToHexM (bs : List Nat) : List Char :=
  bs.foldr (fun b acc => byteToHex b ++ acc) []

/-- Big-endian bytes-to-integer, as in `BigInt` of the prefixed hex string. -/
def natFromBytesBE (bs : List Nat) : Nat :=
  bs.foldl (fun acc b => acc * 256 + b) 0

/-- Little-endian bytes-to-integer (ed25519 scalar decoding). -/
def natFromBytesLE (bs : List Nat) : Nat :=
  bs.foldr (fun b acc => b + 256 * acc) 0

/-- `k` little-endian bytes of an integer. -/
def natToBytesLE : Nat → Nat → List Nat
  | 0, _ => []
  | k + 1, v => v % 256 :: natToBytesLE k (v / 256)

/-- `BigInt` applied to a prefixed hex string: big-endian value, failing
on a malformed string (a thrown `SyntaxError`). -/
def natFromHexBE (s : List Char) : Option Nat :=
  if s = [] then none
  else s.foldl (fun acc c => acc.bind fun a => (hexDigitVal c).map fun d => a * 16 + d)
    (some 0)

/-- `stealthScalar.toString(16)`: lowercase hex, no leading zeros,
`"0"` for zero (values here are below `2 ^ 256`). -/
def natToHexStr (v : Nat) : List Char :=
  let s := (bytesToHexM ((natToBytesLE 32 v).reverse)).dropWhile (· = ('0'))
  if s = [] then [('0')] else s

/-- `.padStart(64, '0')`. -/
def padStart64 (s : List Char) : List Char :=
  List.replicate (64 - s.length) ('0') ++ s

/-- All entries of a list are bytes. -/
def ByteList (bs : List Nat) : Prop := ∀ b ∈ bs, b < 256

instance (bs : List Nat) : Decidable (ByteList bs) :=
  inferInstanceAs (Decidable (∀ b ∈ bs, b < 256))

/-! ### The primitive black boxes

`Prims` packages the noble ed25519 group operations, SHA-256/SHA-512,
the XChaCha20-Poly1305 seal/open pair, UTF-8 and the JavaScript number
serialization, together with the laws these libraries guarantee. -/

/-- ed25519 clamping of a 32-byte scalar seed:
`head[0] &= 248; head[31] &= 127; head[31] |= 64`. -/
def clamp (bs : List Nat) : List Nat :=
  (bs.set 0 (bs.headD 0 &&& 248)).set 31 ((bs.getD 31 0 &&& 127) ||| 64)

structure Prims where
  /-- Curve points (noble `ExtendedPoint`). -/
  Point : Type
  /-- `ExtendedPoint.BASE`. -/
  base : Point
  /-- Point addition. -/
  add : Point → Point → Point
  /-- Scalar multiplication (range checking is modelled at call sites). -/
  smul : Nat → Point → Point
  /-- `toRawBytes`: 32-byte point encoding. -/
  encode : Point → List Nat
  /-- `ExtendedPoint.fromHex` on bytes: decodes and validates a point. -/
  decode : List Nat → Option Point
  /-- The 32-byte X25519 shared-secret encoding used by `getSharedSecret`. -/
  montEncode : Point → List Nat
  /-- The curve order `CURVE.n` used by the range check in `multiply`. -/
  n : Nat
  sha256 : List Nat → List Nat
  sha512 : List Nat → List Nat
  /-- The domain of finite JavaScript numbers used as amounts. -/
  Amount : Type
  /-- `amount.toString()`. -/
  amtToString : Amount → List Char
  /-- `parseFloat` composed with string decoding. -/
  parseAmount : List Char → Amount
  /-- `TextEncoder().encode` / `utf8ToBytes`. -/
  utf8Enc : List Char → List Nat
  /-- `TextDecoder().decode`. -/
  utf8Dec : List Nat → List Char
  /-- XChaCha20-Poly1305 `encrypt` for a given key and nonce. -/
  aeadSeal : List Nat → List Nat → List Nat → List Nat
  /-- XChaCha20-Poly1305 `decrypt`; `none` on an authentication failure. -/
  aeadOpen : List Nat → List Nat → List Nat → Option (List Nat)
  /-- Point encoding is 32 bytes long. -/
  encode_len : ∀ pt, (encode pt).length = 32
  /-- Point encodings are bytes. -/
  encode_lt : ∀ pt, ByteList (encode pt)
  /-- Decoding inverts encoding. -/
  decode_encode : ∀ pt, decode (encode pt) = some pt
  /-- Scalar multiplication is a monoid action. -/
  smul_smul : ∀ a b pt, smul a (smul b pt) = smul (a * b) pt
  /-- SHA-256 digests are 32 bytes long. -/
  sha256_len : ∀ bs, (sha256 bs).length = 32
  /-- SHA-256 digests are bytes. -/
  sha256_lt : ∀ bs, ByteList (sha256 bs)
  /-- AEAD round trip. -/
  aead_roundtrip : ∀ k nn m, aeadOpen k nn (aeadSeal k nn m) = some m
  /-- Sealing bytes yields bytes. -/
  aeadSeal_lt : ∀ k nn m, ByteList m → ByteList (aeadSeal k nn m)
  /-- ECMA-262: `parseFloat (x.toString())` recovers every finite number. -/
  parse_amt : ∀ a, parseAmount (amtToString a) = a
  /-- UTF-8 round trip. -/
  utf8_roundtrip : ∀ s, utf8Dec (utf8Enc s) = s
  /-- UTF-8 produces bytes. -/
  utf8_lt : ∀ s, ByteList (utf8Enc s)

/-- The secret scalar noble derives from a 32-byte seed:
clamped low half of the SHA-512 digest, reduced mod the curve order. -/
def toScalar (P : Prims) (seed : List Nat) : Nat :=
  natFromBytesLE (clamp ((P.sha512 seed).take 32)) % P.n

/-- `ed25519.getPublicKey`. -/
def getPublicKey (P : Prims) (seed : List Nat) : List Nat :=
  P.encode (P.smul (toScalar P seed) P.base)

/-- `ed25519.getSharedSecret` (noble: decode the peer point, multiply by
the own clamped scalar, return the X25519 encoding); throws when the
peer bytes do not decode to a valid point. -/
def getSharedSecret (P : Prims) (priv : List Nat) (pub : List Nat) :
    Except String (List Nat) :=
  match P.decode pub with
  | none => .error ("invalid point")
  | some q => .ok (P.montEncode (P.smul (toScalar P priv) q))

/-- `ExtendedPoint.BASE.multiply k`: noble requires `1 ≤ k < CURVE.n`
and throws a range error otherwise (no implicit reduction). -/
def mulBase (P : Prims) (k : Nat) : Except String P.Point :=
  if 1 ≤ k ∧ k < P.n then .ok (P.smul k P.base) else .error ("invalid scalar")

/-! ### The privacy module (`src/api/src/privacy.ts`) -/

/-- The hardcoded curve order literal of `deriveStealthPrivateKey`:
`0x1000000000000000000000000000000014def9dea2f79cd65812631a5cf5d3ed`. -/
def curveOrderLit : Nat :=
  7237005577332262213973186563042994240857116359379907606001950938285454250989

/-- The domain separation string of the address tweak. -/
def stealthDomain : List Char := ("clawwallet-stealth").toList

/-- The domain separation string of the encryption key. -/
def encryptDomain : List Char := ("clawwallet-encrypt").toList

structure StealthKeyPair where
  spendingPublicKey : List Char
  viewingPublicKey : List Char
  spendingPrivateKey : List Char
  viewingPrivateKey : List Char
  metaAddress : List Char
deriving DecidableEq, Repr

structure StealthAddress where
  address : List Char
  ephemeralPublicKey : List Char
  viewTag : Nat
deriving DecidableEq, Repr

structure PrivateTransfer where
  id : List Char
  stealthAddress : List Char
  ephemeralPublicKey : List Char
  viewTag : Nat
  encryptedAmount : List Char
  encryptedMemo : Option (List Char)
  senderHint : Option (List Char)
  timestamp : Int
deriving DecidableEq, Repr, Inhabited

/-- `generateStealthKeyPair`, with the two `randomBytes(32)` draws passed
explicitly. -/
def generateStealthKeyPair (P : Prims) (spendSeed viewSeed : List Nat) :
    StealthKeyPair :=
  let spendingPublicKey := getPublicKey P spendSeed
  let viewingPublicKey := getPublicKey P viewSeed
  { spendingPublicKey := bytesToHexM spendingPublicKey
    viewingPublicKey := bytesToHexM viewingPublicKey
    spendingPrivateKey := bytesToHexM spendSeed
    viewingPrivateKey := bytesToHexM viewSeed
    metaAddress := bytesToHexM spendingPublicKey ++ bytesToHexM viewingPublicKey }

/-- `parseMetaAddress`: length check, then `hexToBytes` on the two halves.
The source performs no point validation here. -/
def parseMetaAddress (metaAddress : List Char) :
    Except String (List Nat × List Nat) :=
  if metaAddress.length ≠ 128 then .error ("Invalid meta address length")
  else
    match hexToBytesM (metaAddress.take 64) with
    | none => .error ("invalid hex")
    | some spendingPublicKey =>
      match hexToBytesM (metaAddress.drop 64) with
      | none => .error ("invalid hex")
      | some viewingPublicKey => .ok (spendingPublicKey, viewingPublicKey)

/-- The tweak scalar both sides compute:
`BigInt` of the hex of `sha256(sha256 s || domain).slice(0, 32)`, big-endian. -/
def tweakOf (P : Prims) (s : List Nat) : Nat :=
  natFromBytesBE ((P.sha256 (P.sha256 s ++ P.utf8Enc stealthDomain)).take 32)

/-- `deriveStealthAddress`, with the ephemeral `randomBytes(32)` draw
passed explicitly. -/
def deriveStealthAddress (P : Prims) (recipientMetaAddress : List Char)
    (ephSeed : List Nat) : Except String StealthAddress :=
  match parseMetaAddress recipientMetaAddress with
  | .error e => .error e
  | .ok (spendingPublicKey, viewingPublicKey) =>
    let ephemeralPublicKey := getPublicKey P ephSeed
    match getSharedSecret P ephSeed viewingPublicKey with
    | .error e => .error e
    | .ok sharedSecret =>
      let viewTag := (P.sha256 sharedSecret).headD 0
      let tweak := tweakOf P sharedSecret
      match P.decode spendingPublicKey with
      | none => .error ("invalid point")
      | some spendPt =>
        match mulBase P tweak with
        | .error e => .error e
        | .ok tweakPt =>
          .ok { address := bytesToHexM (P.encode (P.add spendPt tweakPt))
                ephemeralPublicKey := bytesToHexM ephemeralPublicKey
                viewTag := viewTag }

/-- `checkStealthOwnership`: the whole body is wrapped in `try/catch`
returning `false`, so every failure becomes a negative answer. -/
def checkStealthOwnership (P : Prims) (stealthAddress ephemeralPublicKey
    viewingPrivateKey spendingPublicKey : List Char) : Bool :=
  match hexToBytesM viewingPrivateKey with
  | none => false
  | some vb =>
    match hexToBytesM ephemeralPublicKey with
    | none => false
    | some eb =>
      match getSharedSecret P vb eb with
      | .error _ => false
      | .ok sharedSecret =>
        let tweak := tweakOf P sharedSecret
        match (hexToBytesM spendingPublicKey).bind P.decode with
        | none => false
        | some spendPt =>
          match mulBase P tweak with
          | .error _ => false
          | .ok tweakPt =>
            decide (bytesToHexM (P.encode (P.add spendPt tweakPt)) = stealthAddress)

/-- `deriveStealthPrivateKey`: recomputes the shared secret and tweak,
then returns the raw spending key hex read big-endian, plus the tweak,
modulo the hardcoded curve order,
as a zero-padded hex string. -/
def deriveStealthPrivateKey (P : Prims) (ephemeralPublicKey viewingPrivateKey
    spendingPrivateKey : List Char) : Except String (List Char) :=
  match hexToBytesM viewingPrivateKey with
  | none => .error ("invalid hex")
  | some vb =>
    match hexToBytesM ephemeralPublicKey with
    | none => .error ("invalid hex")
    | some eb =>
      match getSharedSecret P vb eb with
      | .error e => .error e
      | .ok sharedSecret =>
        let tweak := tweakOf P sharedSecret
        match natFromHexBE spendingPrivateKey with
        | none => .error ("invalid scalar")
        | some spendingScalar =>
          .ok (padStart64 (natToHexStr ((spendingScalar + tweak) % curveOrderLit)))

/-- The symmetric key both sides derive:
`sha256(sharedSecret || encryptDomain)`. -/
def encKeyOf (P : Prims) (sharedSecret : List Nat) : List Nat :=
  P.sha256 (sharedSecret ++ P.utf8Enc encryptDomain)

/-- JavaScript truthiness of an optional string (`if (memo)`): present
and non-empty. -/
def truthyStr (s : Option (List Char)) : Bool :=
  match s with
  | none => false
  | some s => decide (s ≠ [])

/-- `encryptPaymentData`, with the two `randomBytes(24)` nonce draws
passed explicitly. -/
def encryptPaymentData (P : Prims) (amount : P.Amount) (memo : Option (List Char))
    (ephemeralPrivateKey recipientViewingPublicKey nonce memoNonce : List Nat) :
    Except String (List Char × Option (List Char)) :=
  match getSharedSecret P ephemeralPrivateKey recipientViewingPublicKey with
  | .error e => .error e
  | .ok sharedSecret =>
    let encryptionKey := encKeyOf P sharedSecret
    let amountBytes := P.utf8Enc (P.amtToString amount)
    let encryptedAmount := bytesToHexM nonce ++ bytesToHexM (P.aeadSeal encryptionKey nonce amountBytes)
    let encryptedMemo :=
      if truthyStr memo then
        some (bytesToHexM memoNonce ++
          bytesToHexM (P.aeadSeal encryptionKey memoNonce (P.utf8Enc (memo.getD []))))
      else none
    .ok (encryptedAmount, encryptedMemo)

/-- One encrypted field: split the stored hex into a 24-byte nonce and
the ciphertext, then open. The AEAD failure is a thrown exception. -/
def openField (P : Prims) (key : List Nat) (stored : List Char) :
    Except String (List Nat) :=
  match hexToBytesM (stored.take 48) with
  | none => .error ("invalid hex")
  | some fieldNonce =>
    match hexToBytesM (stored.drop 48) with
    | none => .error ("invalid hex")
    | some ciphertext =>
      match P.aeadOpen key fieldNonce ciphertext with
      | none => .error ("authentication failed")
      | some plaintext => .ok plaintext

/-- `decryptPaymentData`: amount first, then the memo if present; any
failure aborts the whole call (there is no `try/catch` here). -/
def decryptPaymentData (P : Prims) (encryptedAmount : List Char)
    (encryptedMemo : Option (List Char)) (ephemeralPublicKey viewingPrivateKey : List Char) :
    Except String (P.Amount × Option (List Char)) :=
  match hexToBytesM viewingPrivateKey with
  | none => .error ("invalid hex")
  | some vb =>
    match hexToBytesM ephemeralPublicKey with
    | none => .error ("invalid hex")
    | some eb =>
      match getSharedSecret P vb eb with
      | .error e => .error e
      | .ok sharedSecret =>
        let encryptionKey := encKeyOf P sharedSecret
        match openField P encryptionKey encryptedAmount with
        | .error e => .error e
        | .ok amountBytes =>
          let amount := P.parseAmount (P.utf8Dec amountBytes)
          if truthyStr encryptedMemo then
            match openField P encryptionKey (encryptedMemo.getD []) with
            | .error e => .error e
            | .ok memoBytes => .ok (amount, some (P.utf8Dec memoBytes))
          else .ok (amount, none)

/-! ### Registry and scanner -/

/-- `privateTransfers.set id t`: a JavaScript `Map` keeps the original
insertion position when a key is overwritten. -/
def mapSet (m : List (List Char × PrivateTransfer)) (t : PrivateTransfer) :
    List (List Char × PrivateTransfer) :=
  if t.id ∈ m.map Prod.fst then
    m.map (fun kv => if kv.1 = t.id then (kv.1, t) else kv)
  else m ++ [(t.id, t)]

/-- A sequence of `registerPrivateTransfer` calls applied to the empty
registry. -/
def registerAll (ts : List PrivateTransfer) : List (List Char × PrivateTransfer) :=
  ts.foldl mapSet []

/-- `getPrivacyStats`: `(totalPrivateTransfers, totalVolume)`, the
volume hardcoded to zero since amounts are encrypted. -/
def getPrivacyStats (m : List (List Char × PrivateTransfer)) : Nat × Nat :=
  (m.length, 0)

/-- JavaScript truthiness of the optional `afterTimestamp` bound
(`if (afterTimestamp && ...)`); `0` is falsy. -/
def tsSkip (afterTimestamp : Option Int) (ts : Int) : Bool :=
  match afterTimestamp with
  | none => false
  | some t => decide (t ≠ 0) && decide (ts < t)

/-- `scanForPayments`: per record, the timestamp skip, the view-tag
prefilter (whose decoding is NOT inside any `try/catch`), then the full
ownership check. -/
def scanForPayments (P : Prims) (viewingPrivateKey spendingPublicKey : List Char)
    (afterTimestamp : Option Int) :
    List PrivateTransfer → Except String (List PrivateTransfer)
  | [] => .ok []
  | transfer :: rest =>
    if tsSkip afterTimestamp transfer.timestamp then
      scanForPayments P viewingPrivateKey spendingPublicKey afterTimestamp rest
    else
      match hexToBytesM viewingPrivateKey with
      | none => .error ("invalid hex")
      | some vb =>
        match hexToBytesM transfer.ephemeralPublicKey with
        | none => .error ("invalid hex")
        | some eb =>
          match getSharedSecret P vb eb with
          | .error e => .error e
          | .ok sharedSecret =>
            let expectedViewTag := (P.sha256 sharedSecret).headD 0
            if expectedViewTag ≠ transfer.viewTag then
              scanForPayments P viewingPrivateKey spendingPublicKey afterTimestamp rest
            else if checkStealthOwnership P transfer.stealthAddress
                transfer.ephemeralPublicKey viewingPrivateKey spendingPublicKey then
              (scanForPayments P viewingPrivateKey spendingPublicKey afterTimestamp
                rest).map (transfer :: ·)
            else
              scanForPayments P viewingPrivateKey spendingPublicKey afterTimestamp rest

/-! ### Arithmetic and codec lemmas -/

theorem natToBytesLE_length (k v : Nat) : (natToBytesLE k v).length = k := by
  induction k generalizing v with
  | zero => rfl
  | succ k ih => simp [natToBytesLE, ih]

theorem natToBytesLE_lt (k v : Nat) : ByteList (natToBytesLE k v) := by
  induction k generalizing v with
  | zero => intro b hb; simp [natToBytesLE] at hb
  | succ k ih =>
    intro b hb
    simp only [natToBytesLE, List.mem_cons] at hb
    rcases hb with h | h
    · omega
    · exact ih _ _ h

theorem natFromBytesLE_natToBytesLE (k v : Nat) (h : v < 256 ^ k) :
    natFromBytesLE (natToBytesLE k v) = v := by
  induction k generalizing v with
  | zero => simp [natToBytesLE, natFromBytesLE]; omega
  | succ k ih =>
    have hdiv : v / 256 < 256 ^ k := by
      rw [Nat.div_lt_iff_lt_mul (by omega)]
      calc v < 256 ^ (k + 1) := h
        _ = 256 ^ k * 256 := by ring
    simp only [natToBytesLE, natFromBytesLE, List.foldr_cons]
    have : (natToBytesLE k (v / 256)).foldr (fun b acc => b + 256 * acc) 0 =
        natFromBytesLE (natToBytesLE k (v / 256)) := rfl
    rw [this, ih _ hdiv]
    omega

/-! ### A concrete instantiation of the primitives

The protocol layer is proved against an arbitrary `Prims`; to evaluate it
on concrete inputs the black boxes are instantiated with a small
commutative group (`Fin 251` under addition, scalar multiplication by
`k * x % 251`), canonical 32-byte encodings, simple invertible stand-ins
for UTF-8 and number formatting, and an append-a-checksum AEAD.  All
`Prims` laws are discharged for these components. -/

def toySmul (k : Nat) (x : Fin 251) : Fin 251 :=
  ⟨k * x.val % 251, Nat.mod_lt _ (by omega)⟩

theorem toySmul_smul (a b : Nat) (x : Fin 251) :
    toySmul a (toySmul b x) = toySmul (a * b) x := by
  apply Fin.ext
  show a * (b * x.val % 251) % 251 = a * b * x.val % 251
  rw [Nat.mul_assoc]
  exact (Nat.mod_modEq (b * x.val) 251).mul_left a

def toyEncode (x : Fin 251) : List Nat := natToBytesLE 32 x.val

def toyDecode (bs : List Nat) : Option (Fin 251) :=
  if h : natFromBytesLE bs < 251 ∧ bs = natToBytesLE 32 (natFromBytesLE bs) then
    some ⟨natFromBytesLE bs, h.1⟩
  else none

theorem toyDecode_toyEncode (x : Fin 251) : toyDecode (toyEncode x) = some x := by
  have hv : natFromBytesLE (toyEncode x) = x.val :=
    natFromBytesLE_natToBytesLE 32 x.val (lt_trans x.isLt (by norm_num))
  unfold toyDecode
  split
  case isTrue h =>
    rw [Option.some_inj]
    exact Fin.ext hv
  case isFalse h =>
    exact absurd (And.intro (hv ▸ x.isLt) (by rw [hv]; rfl)) h

def toyUtf8Enc (s : List Char) : List Nat :=
  s.foldr (fun c acc =>
    c.toNat % 256 :: c.toNat / 256 % 256 :: c.toNat / 65536 % 256 ::
      c.toNat / 16777216 % 256 :: acc) []

def toyUtf8Dec : List Nat → List Char
  | b0 :: b1 :: b2 :: b3 :: rest =>
    Char.ofNat (b0 + 256 * b1 + 65536 * b2 + 16777216 * b3) :: toyUtf8Dec rest
  | _ => []

theorem toyUtf8_roundtrip (s : List Char) : toyUtf8Dec (toyUtf8Enc s) = s := by
  induction s with
  | nil => rfl
  | cons c s ih =>
    have hc : c.toNat < 2 ^ 32 := by
      simpa [Char.toNat, UInt32.toNat] using c.val.val.isLt
    have hval : c.toNat % 256 + 256 * (c.toNat / 256 % 256) +
        65536 * (c.toNat / 65536 % 256) + 16777216 * (c.toNat / 16777216 % 256) =
        c.toNat := by omega
    simp only [toyUtf8Enc, List.foldr_cons, toyUtf8Dec]
    have henc : toyUtf8Enc s =
        s.foldr (fun c acc =>
          c.toNat % 256 :: c.toNat / 256 % 256 :: c.toNat / 65536 % 256 ::
            c.toNat / 16777216 % 256 :: acc) [] := rfl
    rw [← henc, hval, Char.ofNat_toNat, ih]

theorem toyUtf8Enc_lt (s : List Char) : ByteList (toyUtf8Enc s) := by
  induction s with
  | nil => intro b hb; simp [toyUtf8Enc] at hb
  | cons c s ih =>
    intro b hb
    simp only [toyUtf8Enc, List.foldr_cons, List.mem_cons] at hb
    rcases hb with h | h | h | h | h
    · omega
    · omega
    · omega
    · omega
    · exact ih b h

def toyTag (k nn m : List Nat) : Nat :=
  (k.foldl (· + ·) 0 + nn.foldl (· + ·) 0 + m.foldl (· + ·) 0) % 256

def toyAeadSeal (k nn m : List Nat) : List Nat := m ++ [toyTag k nn m]

def toyAeadOpen (k nn c : List Nat) : Option (List Nat) :=
  if c.getLast? = some (toyTag k nn c.dropLast) then some c.dropLast else none

theorem toyAead_roundtrip (k nn m : List Nat) :
    toyAeadOpen k nn (toyAeadSeal k nn m) = some m := by
  have h1 : (m ++ [toyTag k nn m]).dropLast = m := List.dropLast_concat
  have h2 : (m ++ [toyTag k nn m]).getLast? = some (toyTag k nn m) :=
    List.getLast?_concat _
  rw [toyAeadSeal, toyAeadOpen, h1, h2, if_pos rfl]

theorem toyAeadSeal_lt (k nn m : List Nat) (hm : ByteList m) :
    ByteList (toyAeadSeal k nn m) := by
  intro b hb
  rcases List.mem_append.mp hb with h | h
  · exact hm b h
  · simp only [List.mem_singleton] at h
    subst h
    exact Nat.mod_lt _ (by omega)

theorem replicate_append_lt (n a b : Nat) (ha : a < 256) (hb : b < 256) :
    ByteList (List.replicate n a ++ [b]) := by
  intro x hx
  rcases List.mem_append.mp hx with h | h
  · rw [List.eq_of_mem_replicate h]; exact ha
  · simp only [List.mem_singleton] at h; omega

theorem replicate_lt (n a : Nat) (ha : a < 256) : ByteList (List.replicate n a) := by
  intro x hx
  rw [List.eq_of_mem_replicate hx]; exact ha

/-- The instantiation used to evaluate the protocol on concrete inputs:
SHA-256 is a constant digest whose big-endian value (`7`) is a valid
scalar, SHA-512 is the zero digest. -/
def toyA : Prims where
  Point := Fin 251
  base := 1
  add := (· + ·)
  smul := toySmul
  encode := toyEncode
  decode := toyDecode
  montEncode := toyEncode
  n := 251
  sha256 := fun _ => List.replicate 31 0 ++ [7]
  sha512 := fun _ => List.replicate 64 0
  Amount := Nat
  amtToString := fun a => List.replicate a ('x')
  parseAmount := fun s => s.length
  utf8Enc := toyUtf8Enc
  utf8Dec := toyUtf8Dec
  aeadSeal := toyAeadSeal
  aeadOpen := toyAeadOpen
  encode_len := fun pt => natToBytesLE_length 32 pt.val
  encode_lt := fun pt => natToBytesLE_lt 32 pt.val
  decode_encode := toyDecode_toyEncode
  smul_smul := toySmul_smul
  sha256_len := fun _ => by simp
  sha256_lt := fun _ => replicate_append_lt 31 0 7 (by omega) (by omega)
  aead_roundtrip := toyAead_roundtrip
  aeadSeal_lt := toyAeadSeal_lt
  parse_amt := fun a => by simp
  utf8_roundtrip := toyUtf8_roundtrip
  utf8_lt := toyUtf8Enc_lt

/-- Same instantiation, but SHA-256 is the all-`0xff` digest, whose
big-endian value `2 ^ 256 - 1` exceeds the curve order. -/
def toyB : Prims where
  Point := Fin 251
  base := 1
  add := (· + ·)
  smul := toySmul
  encode := toyEncode
  decode := toyDecode
  montEncode := toyEncode
  n := 251
  sha256 := fun _ => List.replicate 32 255
  sha512 := fun _ => List.replicate 64 0
  Amount := Nat
  amtToString := fun a => List.replicate a ('x')
  parseAmount := fun s => s.length
  utf8Enc := toyUtf8Enc
  utf8Dec := toyUtf8Dec
  aeadSeal := toyAeadSeal
  aeadOpen := toyAeadOpen
  encode_len := fun pt => natToBytesLE_length 32 pt.val
  encode_lt := fun pt => natToBytesLE_lt 32 pt.val
  decode_encode := toyDecode_toyEncode
  smul_smul := toySmul_smul
  sha256_len := fun _ => by simp
  sha256_lt := fun _ => replicate_lt 32 255 (by omega)
  aead_roundtrip := toyAead_roundtrip
  aeadSeal_lt := toyAeadSeal_lt
  parse_amt := fun a => by simp
  utf8_roundtrip := toyUtf8_roundtrip
  utf8_lt := toyUtf8Enc_lt

/-! ### Derived definitions used to state the claims -/

/-- The Diffie-Hellman secret `montEncode (toScalar a * (toScalar b * B))`
that `getSharedSecret a (getPublicKey b)` computes. -/
def dhSecret (P : Prims) (a b : List Nat) : List Nat :=
  P.montEncode (P.smul (toScalar P a) (P.smul (toScalar P b) P.base))

/-- The encryption key `decryptPaymentData` derives from its two hex-string
key arguments (the first three steps of its body). -/
def deriveDecKey (P : Prims) (ephemeralPublicKey viewingPrivateKey : List Char) :
    Except String (List Nat) :=
  match hexToBytesM viewingPrivateKey with
  | none => .error ("invalid hex")
  | some vb =>
    match hexToBytesM ephemeralPublicKey with
    | none => .error ("invalid hex")
    | some eb =>
      match getSharedSecret P vb eb with
      | .error e => .error e
      | .ok sharedSecret => .ok (encKeyOf P sharedSecret)

/-- The encoding of `scalar * BasePoint` for the scalar returned by
`deriveStealthPrivateKey` (empty on failure): the address the derived
spend key actually controls. -/
def stealthSpendPub (P : Prims) (ephemeralPublicKey viewingPrivateKey
    spendingPrivateKey : List Char) : List Char :=
  match deriveStealthPrivateKey P ephemeralPublicKey viewingPrivateKey
      spendingPrivateKey with
  | .ok s => bytesToHexM (P.encode (P.smul ((natFromHexBE s).getD 0) P.base))
  | .error _ => []

/-! ### Concrete inputs for evaluating the protocol -/

/-- A concrete spending seed (`randomBytes(32)` outcome). -/
def ss0 : List Nat := List.replicate 32 1

/-- A concrete viewing seed. -/
def vs0 : List Nat := List.replicate 32 2

/-- A concrete ephemeral seed. -/
def es0 : List Nat := List.replicate 32 3

/-- The identity generated from the concrete seeds. -/
def kp0 : StealthKeyPair := generateStealthKeyPair toyA ss0 vs0

/-- The stealth address the sender derives against `kp0`. -/
def sa0 : StealthAddress :=
  match deriveStealthAddress toyA kp0.metaAddress es0 with
  | .ok sa => sa
  | .error _ => { address := [], ephemeralPublicKey := [], viewTag := 0 }

/-- The identity generated from the same seeds under `toyB`. -/
def kpB : StealthKeyPair := generateStealthKeyPair toyB ss0 vs0

/-- The viewing public key bytes of the recipient. -/
def viewPub0 : List Nat := getPublicKey toyA vs0

/-- The ephemeral public key of the sender as hex. -/
def ephHex0 : List Char := bytesToHexM (getPublicKey toyA es0)

/-- The viewing private key of the recipient as hex. -/
def vsHex0 : List Char := bytesToHexM vs0

/-- A concrete amount nonce (`randomBytes(24)` outcome). -/
def nA0 : List Nat := List.replicate 24 5

/-- A concrete memo nonce. -/
def nM0 : List Nat := List.replicate 24 6

/-- A concrete amount (the numeral as a `toyA` amount). -/
def toyAmount (a : Nat) : toyA.Amount := a

/-- The round trip of claim C4 at an empty-string memo. -/
def c4emptyMemoRoundtrip : Except String (Nat × Option (List Char)) :=
  match encryptPaymentData toyA (toyAmount 3) (some []) es0 viewPub0 nA0 nM0 with
  | .ok (ea, em) => decryptPaymentData toyA ea em ephHex0 vsHex0
  | .error e => .error e

/-- The encryption of amount `3` with memo `"hi"` at the concrete inputs. -/
def c4enc : List Char × Option (List Char) :=
  match encryptPaymentData toyA (toyAmount 3) (some [('h'), ('i')]) es0 viewPub0 nA0 nM0 with
  | .ok p => p
  | .error _ => ([], none)

/-- A registry record whose `ephemeralPublicKey` is not valid hex. -/
def c6bad : PrivateTransfer :=
  { id := [('b')], stealthAddress := sa0.address, ephemeralPublicKey := [('z'), ('z')]
    viewTag := 0, encryptedAmount := [], encryptedMemo := none, senderHint := none
    timestamp := 5 }

/-- A well-formed owned registry record. -/
def c6good : PrivateTransfer :=
  { id := [('g')], stealthAddress := sa0.address
    ephemeralPublicKey := sa0.ephemeralPublicKey, viewTag := sa0.viewTag
    encryptedAmount := [], encryptedMemo := none, senderHint := none, timestamp := 7 }

/-- A meta-address-shaped input whose second half is not a valid point
encoding (`ff` repeated; its value exceeds any coordinate bound). -/
def c7meta : List Char := bytesToHexM (natToBytesLE 32 5) ++ List.replicate 64 ('f')

/-- An owned record carrying a negative timestamp. -/
def c8neg : PrivateTransfer :=
  { id := [('n')], stealthAddress := sa0.address
    ephemeralPublicKey := sa0.ephemeralPublicKey, viewTag := sa0.viewTag
    encryptedAmount := [], encryptedMemo := none, senderHint := none, timestamp := -1 }

/-- An owned record at timestamp `t`. -/
def c8at (t : Int) : PrivateTransfer :=
  { id := [('t')], stealthAddress := sa0.address
    ephemeralPublicKey := sa0.ephemeralPublicKey, viewTag := sa0.viewTag
    encryptedAmount := [], encryptedMemo := none, senderHint := none, timestamp := t }

/-- The key `decryptPaymentData` derives at the concrete inputs. -/
def c9key : List Nat :=
  match deriveDecKey toyA ephHex0 vsHex0 with
  | .ok k => k
  | .error _ => []

/-- The stored encrypted-amount field at the concrete inputs. -/
def c9ea : List Char := (c4enc).1

/-- The plaintext bytes of the amount field. -/
def c9ab : List Nat :=
  match openField toyA c9key c9ea with
  | .ok ab => ab
  | .error _ => []

/-- A corrupted stored memo field: the right nonce but a ciphertext whose
authentication tag does not verify. -/
def c9badMemo : List Char := bytesToHexM nM0 ++ bytesToHexM [99]

/-- Two registries agreeing on the multiset of ids but differing in every
other field. -/
def c10regsA : List PrivateTransfer :=
  [{ id := [('a')], stealthAddress := [('p')], ephemeralPublicKey := [('q')]
     viewTag := 1, encryptedAmount := [('r')], encryptedMemo := none
     senderHint := none, timestamp := 11 },
   { id := [('b')], stealthAddress := [('s')], ephemeralPublicKey := [('u')]
     viewTag := 2, encryptedAmount := [('v')], encryptedMemo := some [('w')]
     senderHint := none, timestamp := 12 }]

def c10regsB : List PrivateTransfer :=
  [{ id := [('a')], stealthAddress := [('c')], ephemeralPublicKey := [('d')]
     viewTag := 9, encryptedAmount := [('e')], encryptedMemo := some [('g')]
     senderHint := some [('h')], timestamp := 91 },
   { id := [('b')], stealthAddress := [('i')], ephemeralPublicKey := [('j')]
     viewTag := 8, encryptedAmount := [('k')], encryptedMemo := none
     senderHint := none, timestamp := 92 }]

/-! ### Hex codec lemmas -/

theorem length_bytesToHexM (bs : List Nat) : (bytesToHexM bs).length = 2 * bs.length := by
  induction bs with
  | nil => rfl
  | cons b rest ih =>
    show (byteToHex b ++ bytesToHexM rest).length = 2 * (rest.length + 1)
    simp [byteToHex, ih]
    omega

theorem hexDigitVal_hexDigitChar (d : Nat) (hd : d < 16) :
    hexDigitVal (hexDigitChar d) = some d := by
  interval_cases d <;> rfl

theorem hexToBytesM_bytesToHexM (bs : List Nat) (h : ByteList bs) :
    hexToBytesM (bytesToHexM bs) = some bs := by
  induction bs with
  | nil => rfl
  | cons b rest ih =>
    have hb : b < 256 := h b (List.mem_cons_self b rest)
    have hrest : ByteList rest := fun x hx => h x (List.mem_cons_of_mem b hx)
    have h1 : hexDigitVal (hexDigitChar (b / 16)) = some (b / 16) :=
      hexDigitVal_hexDigitChar _ (by omega)
    have h2 : hexDigitVal (hexDigitChar (b % 16)) = some (b % 16) :=
      hexDigitVal_hexDigitChar _ (by omega)
    show hexToBytesM (byteToHex b ++ bytesToHexM rest) = some (b :: rest)
    simp only [byteToHex, List.cons_append, List.nil_append, hexToBytesM, h1, h2,
      ih hrest, Option.bind_eq_bind, Option.some_bind]
    have : 16 * (b / 16) + b % 16 = b := by omega
    simp [this, ih hrest]

/-! ### Diffie-Hellman consistency lemmas -/

theorem dhSecret_comm (P : Prims) (a b : List Nat) :
    dhSecret P a b = dhSecret P b a := by
  unfold dhSecret
  rw [P.smul_smul, P.smul_smul, Nat.mul_comm]

theorem getSharedSecret_pub (P : Prims) (a b : List Nat) :
    getSharedSecret P a (getPublicKey P b) = .ok (dhSecret P a b) := by
  unfold getSharedSecret getPublicKey dhSecret
  rw [P.decode_encode]

/-! ### Evaluating the protocol on well-formed inputs -/

theorem parseMetaAddress_valid (b1 b2 : List Nat) (h1 : ByteList b1)
    (h2 : ByteList b2) (l1 : b1.length = 32) (l2 : b2.length = 32) :
    parseMetaAddress (bytesToHexM b1 ++ bytesToHexM b2) = .ok (b1, b2) := by
  have hl1 : (bytesToHexM b1).length = 64 := by rw [length_bytesToHexM, l1]
  have hl2 : (bytesToHexM b2).length = 64 := by rw [length_bytesToHexM, l2]
  have hlen : (bytesToHexM b1 ++ bytesToHexM b2).length = 128 := by
    rw [List.length_append, hl1, hl2]
  have htake : (bytesToHexM b1 ++ bytesToHexM b2).take 64 = bytesToHexM b1 := by
    rw [← hl1]; exact List.take_left _ _
  have hdrop : (bytesToHexM b1 ++ bytesToHexM b2).drop 64 = bytesToHexM b2 := by
    rw [← hl1]; exact List.drop_left _ _
  unfold parseMetaAddress
  rw [if_neg (by rw [hlen]; omega), htake, hdrop,
    hexToBytesM_bytesToHexM b1 h1, hexToBytesM_bytesToHexM b2 h2]

theorem deriveStealthAddress_generated (P : Prims) (ss vs es : List Nat) :
    deriveStealthAddress P (generateStealthKeyPair P ss vs).metaAddress es =
      match mulBase P (tweakOf P (dhSecret P es vs)) with
      | .error e => .error e
      | .ok tweakPt =>
        .ok { address := bytesToHexM (P.encode
                (P.add (P.smul (toScalar P ss) P.base) tweakPt))
              ephemeralPublicKey := bytesToHexM (getPublicKey P es)
              viewTag := (P.sha256 (dhSecret P es vs)).headD 0 } := by
  have hmeta : (generateStealthKeyPair P ss vs).metaAddress =
      bytesToHexM (getPublicKey P ss) ++ bytesToHexM (getPublicKey P vs) := rfl
  have hparse : parseMetaAddress ((generateStealthKeyPair P ss vs).metaAddress) =
      .ok (getPublicKey P ss, getPublicKey P vs) := by
    rw [hmeta]
    exact parseMetaAddress_valid _ _ (P.encode_lt _) (P.encode_lt _)
      (P.encode_len _) (P.encode_len _)
  have hdec : P.decode (getPublicKey P ss) = some (P.smul (toScalar P ss) P.base) :=
    P.decode_encode _
  simp only [deriveStealthAddress, hparse, getSharedSecret_pub, hdec]

/-- Claim C2: for every identity produced by `generateStealthKeyPair` and
every ephemeral randomness for which `deriveStealthAddress` on the
meta-address of the identity returns a `StealthAddress`,
`checkStealthOwnership` on that output — with the viewing
private key and spending public key of the identity — returns `true`: both sides
recompute the same shared secret, view tag and tweak. -/
theorem c2_owner_accepts (P : Prims) (ss vs es : List Nat) (hvs : ByteList vs)
    (sa : StealthAddress)
    (hd : deriveStealthAddress P (generateStealthKeyPair P ss vs).metaAddress es =
      .ok sa) :
    checkStealthOwnership P sa.address sa.ephemeralPublicKey
      (generateStealthKeyPair P ss vs).viewingPrivateKey
      (generateStealthKeyPair P ss vs).spendingPublicKey = true := by
  rw [deriveStealthAddress_generated] at hd
  cases hmb : mulBase P (tweakOf P (dhSecret P es vs)) with
  | error e => rw [hmb] at hd; exact absurd hd (by simp)
  | ok tweakPt =>
    rw [hmb] at hd
    simp only [Except.ok.injEq] at hd
    subst hd
    have hvkv : hexToBytesM (bytesToHexM vs) = some vs :=
      hexToBytesM_bytesToHexM vs hvs
    have heph : hexToBytesM (bytesToHexM (getPublicKey P es)) =
        some (getPublicKey P es) := hexToBytesM_bytesToHexM _ (P.encode_lt _)
    have hsp : hexToBytesM (bytesToHexM (getPublicKey P ss)) =
        some (getPublicKey P ss) := hexToBytesM_bytesToHexM _ (P.encode_lt _)
    have hdec : P.decode (getPublicKey P ss) =
        some (P.smul (toScalar P ss) P.base) := P.decode_encode _
    simp only [checkStealthOwnership, generateStealthKeyPair, hvkv, heph, hsp,
      getSharedSecret_pub, dhSecret_comm P vs es, Option.some_bind, hdec, hmb,
      decide_eq_true_eq]

set_option maxRecDepth 10000 in
theorem c2_owner_accepts_witness :
    checkStealthOwnership toyA sa0.address sa0.ephemeralPublicKey
      kp0.viewingPrivateKey kp0.spendingPublicKey = true :=
  c2_owner_accepts toyA ss0 vs0 es0 (by decide) sa0 (by rfl)

set_option maxRecDepth 10000 in
/-- Claim C1 (code bug): at a concrete identity and a transfer for which
`checkStealthOwnership` returns `true`, the scalar returned by
`deriveStealthPrivateKey` times the base point does NOT encode to the
stealth address of the record: the spending public key is derived from the
clamped SHA-512 scalar of the seed (little-endian) while
`deriveStealthPrivateKey` adds the raw seed hex read big-endian. -/
theorem c1_spend_scalar_mismatch :
    checkStealthOwnership toyA sa0.address sa0.ephemeralPublicKey
      kp0.viewingPrivateKey kp0.spendingPublicKey = true ∧
    stealthSpendPub toyA sa0.ephemeralPublicKey kp0.viewingPrivateKey
      kp0.spendingPrivateKey ≠ sa0.address :=
  ⟨by decide, by decide⟩

set_option maxRecDepth 10000 in
/-- Claim C3 (code bug): the tweak hash value is NOT reduced modulo the
curve order before the base-point multiplication; for a digest whose
big-endian value is at least the order (the all-ff digest of `toyB`, as
for roughly 15 of 16 real SHA-256 outputs) the noble `multiply` range
check makes the derivation throw instead of succeeding. -/
theorem c3_derive_throws_unreduced_tweak :
    deriveStealthAddress toyB kpB.metaAddress es0 = .error ("invalid scalar") := by
  rfl

set_option maxRecDepth 10000 in
/-- Claim C6 (code bug): a registry record whose `ephemeralPublicKey` is
not valid hex makes the whole scan throw from the view-tag prefilter
(which sits outside any `try/catch`), even though a later owned record
would have been found: the scan does not skip the malformed record. -/
theorem c6_scan_aborts_on_malformed :
    scanForPayments toyA kp0.viewingPrivateKey kp0.spendingPublicKey none
      [c6bad, c6good] = .error ("invalid hex") ∧
    scanForPayments toyA kp0.viewingPrivateKey kp0.spendingPublicKey none
      [c6good] = .ok [c6good] :=
  ⟨by rfl, by rfl⟩

/-- Claim C7 (amended): `parseMetaAddress` rejects every input whose
length differs from 128 with the invalid-length error, and accepts every
128-character hex input, returning the raw 32-byte halves WITHOUT
validating that either half decodes to a curve point. -/
theorem c7_parse_no_point_validation (s : List Char) (b1 b2 : List Nat)
    (hlen : s.length ≠ 128) (h1 : ByteList b1) (h2 : ByteList b2)
    (l1 : b1.length = 32) (l2 : b2.length = 32) :
    parseMetaAddress s = .error ("Invalid meta address length") ∧
    parseMetaAddress (bytesToHexM b1 ++ bytesToHexM b2) = .ok (b1, b2) := by
  constructor
  · unfold parseMetaAddress
    rw [if_pos hlen]
  · exact parseMetaAddress_valid b1 b2 h1 h2 l1 l2

set_option maxRecDepth 10000 in
theorem c7_parse_no_point_validation_witness :
    parseMetaAddress [('a')] = .error ("Invalid meta address length") ∧
    parseMetaAddress (bytesToHexM (natToBytesLE 32 5) ++
      bytesToHexM (List.replicate 32 255)) = .ok (natToBytesLE 32 5, List.replicate 32 255) :=
  c7_parse_no_point_validation [('a')] (natToBytesLE 32 5) (List.replicate 32 255)
    (by decide) (by decide) (by decide) (by decide) (by decide)

set_option maxRecDepth 10000 in
/-- Claim C7 (counterexample): a 128-character input whose second half
(`ff` repeated 64 times) does not decode to a valid curve point is
accepted by `parseMetaAddress` with the raw bytes, instead of failing
with an invalid-point error. -/
theorem c7_accepts_invalid_point :
    parseMetaAddress c7meta = .ok (natToBytesLE 32 5, List.replicate 32 255) ∧
    toyA.decode (List.replicate 32 255) = none :=
  ⟨by rfl, by rfl⟩

/-- Claim C8 (amended): for every GIVEN NONZERO bound, the scan behaves
exactly as the scan without a bound over the records whose timestamp is
at least the bound — records strictly below the bound are excluded and
equal timestamps are included.  (A bound of zero is falsy in
`if (afterTimestamp && ...)` and disables the filter instead.) -/
theorem c8_nonzero_bound_filters (P : Prims) (vk sk : List Char) (t : Int)
    (ht : t ≠ 0) (l : List PrivateTransfer) :
    scanForPayments P vk sk (some t) l =
      scanForPayments P vk sk none
        (l.filter (fun r => decide (t ≤ r.timestamp))) := by
  induction l with
  | nil => rfl
  | cons r l ih =>
    simp only [scanForPayments, List.filter_cons]
    by_cases hlt : r.timestamp < t
    · have h1 : tsSkip (some t) r.timestamp = true := by
        simp [tsSkip, ht, hlt]
      have h2 : decide (t ≤ r.timestamp) = false := by
        simp [not_le.mpr hlt]
      rw [h1, h2]
      simp [ih]
    · have h1 : tsSkip (some t) r.timestamp = false := by
        simp [tsSkip, hlt]
      have h2 : decide (t ≤ r.timestamp) = true := by
        simp [not_lt.mp hlt]
      rw [h1, h2]
      simp [scanForPayments, tsSkip, ih]

set_option maxRecDepth 10000 in
theorem c8_nonzero_bound_filters_witness :
    (scanForPayments toyA kp0.viewingPrivateKey kp0.spendingPublicKey (some 20)
      [c8at 10, c8at 20, c8at 30] =
      scanForPayments toyA kp0.viewingPrivateKey kp0.spendingPublicKey none
        ([c8at 10, c8at 20, c8at 30].filter (fun r => decide ((20 : Int) ≤ r.timestamp)))) ∧
    scanForPayments toyA kp0.viewingPrivateKey kp0.spendingPublicKey (some 20)
      [c8at 10, c8at 20, c8at 30] = .ok [c8at 20, c8at 30] :=
  ⟨c8_nonzero_bound_filters toyA kp0.viewingPrivateKey kp0.spendingPublicKey 20
    (by decide) [c8at 10, c8at 20, c8at 30], by rfl⟩

set_option maxRecDepth 10000 in
/-- Claim C8 (counterexample): with the bound `0` given, an owned record
with timestamp `-1 < 0` is NOT excluded — the zero bound is treated as
"no filter" by truthiness, contradicting "excludes exactly the records
whose timestamp is strictly less than the bound" for every given bound. -/
theorem c8_zero_bound_is_no_filter :
    scanForPayments toyA kp0.viewingPrivateKey kp0.spendingPublicKey (some 0)
      [c8neg] = .ok [c8neg] ∧ c8neg.timestamp < 0 :=
  ⟨by rfl, by decide⟩

/-! ### Payload cipher lemmas -/

theorem encryptPaymentData_pub (P : Prims) (a : P.Amount) (memo : Option (List Char))
    (es vs nA nM : List Nat) :
    encryptPaymentData P a memo es (getPublicKey P vs) nA nM = .ok
      (bytesToHexM nA ++ bytesToHexM (P.aeadSeal (encKeyOf P (dhSecret P es vs)) nA
          (P.utf8Enc (P.amtToString a))),
        if truthyStr memo then
          some (bytesToHexM nM ++ bytesToHexM (P.aeadSeal
            (encKeyOf P (dhSecret P es vs)) nM (P.utf8Enc (memo.getD []))))
        else none) := by
  simp only [encryptPaymentData, getSharedSecret_pub]

theorem decryptPaymentData_decompose (P : Prims) (ea : List Char)
    (em : Option (List Char)) (eph vk : List Char) (k : List Nat)
    (hk : deriveDecKey P eph vk = .ok k) :
    decryptPaymentData P ea em eph vk =
      match openField P k ea with
      | .error e => .error e
      | .ok ab =>
        if truthyStr em then
          match openField P k (em.getD []) with
          | .error e => .error e
          | .ok mb => .ok (P.parseAmount (P.utf8Dec ab), some (P.utf8Dec mb))
        else .ok (P.parseAmount (P.utf8Dec ab), none) := by
  cases h1 : hexToBytesM vk with
  | none =>
    simp only [deriveDecKey, h1] at hk
    exact Except.noConfusion hk
  | some vb =>
    cases h2 : hexToBytesM eph with
    | none =>
      simp only [deriveDecKey, h1, h2] at hk
      exact Except.noConfusion hk
    | some eb =>
      cases h3 : getSharedSecret P vb eb with
      | error e =>
        simp only [deriveDecKey, h1, h2, h3] at hk
        exact Except.noConfusion hk
      | ok s =>
        simp only [deriveDecKey, h1, h2, h3, Except.ok.injEq] at hk
        subst hk
        simp only [decryptPaymentData, h1, h2, h3]

theorem openField_seal (P : Prims) (key nonce m : List Nat) (hn : ByteList nonce)
    (hlen : nonce.length = 24) (hm : ByteList m) :
    openField P key (bytesToHexM nonce ++ bytesToHexM (P.aeadSeal key nonce m)) =
      .ok m := by
  have hl : (bytesToHexM nonce).length = 48 := by rw [length_bytesToHexM, hlen]
  have htake : (bytesToHexM nonce ++ bytesToHexM (P.aeadSeal key nonce m)).take 48 =
      bytesToHexM nonce := by rw [← hl]; exact List.take_left _ _
  have hdrop : (bytesToHexM nonce ++ bytesToHexM (P.aeadSeal key nonce m)).drop 48 =
      bytesToHexM (P.aeadSeal key nonce m) := by rw [← hl]; exact List.drop_left _ _
  simp only [openField, htake, hdrop, hexToBytesM_bytesToHexM nonce hn,
    hexToBytesM_bytesToHexM _ (P.aeadSeal_lt _ _ _ hm), P.aead_roundtrip]

/-- Claim C4 (amended): for every finite amount and every memo that is
either absent or a non-empty string, decrypting the output of
`encryptPaymentData` with the matching ephemeral public key and viewing
private key returns exactly the original pair.  (An EMPTY memo string is
falsy in `if (memo)`, is treated as absent, and decrypts to an absent
memo — see the counterexample.) -/
theorem c4_roundtrip (P : Prims) (a : P.Amount) (memo : Option (List Char))
    (vs es nA nM : List Nat) (hvs : ByteList vs) (hnA : ByteList nA)
    (hlA : nA.length = 24) (hnM : ByteList nM) (hlM : nM.length = 24)
    (hmemo : memo = none ∨ ∃ m, memo = some m ∧ m ≠ [])
    (enc : List Char × Option (List Char))
    (he : encryptPaymentData P a memo es (getPublicKey P vs) nA nM = .ok enc) :
    decryptPaymentData P enc.1 enc.2 (bytesToHexM (getPublicKey P es))
      (bytesToHexM vs) = .ok (a, memo) := by
  rw [encryptPaymentData_pub] at he
  simp only [Except.ok.injEq] at he
  subst he
  have hk : deriveDecKey P (bytesToHexM (getPublicKey P es)) (bytesToHexM vs) =
      .ok (encKeyOf P (dhSecret P es vs)) := by
    simp only [deriveDecKey, hexToBytesM_bytesToHexM vs hvs,
      hexToBytesM_bytesToHexM (getPublicKey P es) (P.encode_lt _),
      getSharedSecret_pub, dhSecret_comm P vs es]
  rw [decryptPaymentData_decompose P _ _ _ _ _ hk]
  rcases hmemo with hnone | ⟨m, hm, hme⟩
  · subst hnone
    simp only [truthyStr, if_neg, Bool.false_eq_true, reduceIte,
      openField_seal P _ nA _ hnA hlA (P.utf8_lt _), P.utf8_roundtrip, P.parse_amt]
  · subst hm
    have ht1 : truthyStr (some m) = true := by simp [truthyStr, hme]
    have hne : bytesToHexM nM ++ bytesToHexM (P.aeadSeal
        (encKeyOf P (dhSecret P es vs)) nM (P.utf8Enc m)) ≠ [] := by
      intro hcontra
      have hlc := congrArg List.length hcontra
      simp [length_bytesToHexM, hlM] at hlc
    have ht2 : truthyStr (some (bytesToHexM nM ++ bytesToHexM (P.aeadSeal
        (encKeyOf P (dhSecret P es vs)) nM (P.utf8Enc m)))) = true := by
      simp [truthyStr, hne]
    simp only [ht1, if_true, Option.getD_some,
      openField_seal P _ nA _ hnA hlA (P.utf8_lt _), ht2,
      openField_seal P _ nM _ hnM hlM (P.utf8_lt _), P.utf8_roundtrip, P.parse_amt]

set_option maxRecDepth 10000 in
theorem c4_roundtrip_witness :
    decryptPaymentData toyA (c4enc).1 (c4enc).2 ephHex0 vsHex0 =
      .ok (toyAmount 3, some [('h'), ('i')]) :=
  c4_roundtrip toyA (toyAmount 3) (some [('h'), ('i')]) vs0 es0 nA0 nM0
    (by decide) (by decide) (by decide) (by decide) (by decide)
    (Or.inr ⟨[('h'), ('i')], rfl, by decide⟩) (c4enc) (by rfl)

set_option maxRecDepth 10000 in
/-- Claim C4 (counterexample): with the EMPTY memo string the round trip
returns an ABSENT memo rather than the original empty string:
`if (memo)` is false for `""`, so the memo is never encrypted and
decryption yields `undefined` where the original pair had `""`. -/
theorem c4_empty_memo_lost :
    c4emptyMemoRoundtrip = .ok (3, none) ∧
    some ([] : List Char) ≠ (none : Option (List Char)) :=
  ⟨by rfl, by decide⟩

/-- Claim C9 (amended): the two fields are sealed under independent
nonces, so a valid amount is recoverable by a call that omits the memo;
but a single `decryptPaymentData` call decrypts the amount and then the
memo and propagates the first failure, so a corrupted memo field makes
the WHOLE call fail and the amount is not returned by it. -/
theorem c9_memo_failure_aborts_call (P : Prims) (ea em : List Char)
    (eph vk : List Char) (k ab : List Nat) (err : String)
    (hk : deriveDecKey P eph vk = .ok k)
    (ha : openField P k ea = .ok ab)
    (hm : openField P k em = .error err)
    (hem : em ≠ []) :
    decryptPaymentData P ea (some em) eph vk = .error err ∧
    decryptPaymentData P ea none eph vk =
      .ok (P.parseAmount (P.utf8Dec ab), none) := by
  constructor
  · rw [decryptPaymentData_decompose P ea (some em) eph vk k hk, ha]
    have ht : truthyStr (some em) = true := by simp [truthyStr, hem]
    simp only [ht, if_true, Option.getD_some, hm]
  · rw [decryptPaymentData_decompose P ea none eph vk k hk, ha]
    simp [truthyStr]

set_option maxRecDepth 10000 in
theorem c9_memo_failure_aborts_call_witness :
    decryptPaymentData toyA c9ea (some c9badMemo) ephHex0 vsHex0 =
      .error ("authentication failed") ∧
    decryptPaymentData toyA c9ea none ephHex0 vsHex0 =
      .ok (toyA.parseAmount (toyA.utf8Dec c9ab), none) :=
  c9_memo_failure_aborts_call toyA c9ea c9badMemo ephHex0 vsHex0 c9key c9ab
    ("authentication failed") (by rfl) (by rfl) (by rfl) (by decide)

set_option maxRecDepth 10000 in
/-- Claim C9 (counterexample): a call carrying a valid encrypted amount
and a corrupted memo field fails as a whole — the amount is NOT
recovered by it (the same amount field decrypts fine when the memo is
omitted), contradicting per-field failure isolation. -/
theorem c9_corrupt_memo_blocks_amount :
    decryptPaymentData toyA c9ea (some c9badMemo) ephHex0 vsHex0 =
      .error ("authentication failed") ∧
    decryptPaymentData toyA c9ea none ephHex0 vsHex0 = .ok (toyAmount 3, none) :=
  ⟨by rfl, by rfl⟩

/-! ### Registry statistics -/

theorem mapSet_keys (m : List (List Char × PrivateTransfer)) (t : PrivateTransfer) :
    (mapSet m t).map Prod.fst =
      if t.id ∈ m.map Prod.fst then m.map Prod.fst
      else m.map Prod.fst ++ [t.id] := by
  unfold mapSet
  by_cases h : t.id ∈ m.map Prod.fst
  · rw [if_pos h, if_pos h, List.map_map]
    apply List.map_congr_left
    intro kv _
    by_cases hk : kv.1 = t.id <;> simp [hk]
  · rw [if_neg h, if_neg h, List.map_append]
    rfl

theorem mapSet_keys_nodup (m : List (List Char × PrivateTransfer))
    (t : PrivateTransfer) (hm : (m.map Prod.fst).Nodup) :
    ((mapSet m t).map Prod.fst).Nodup := by
  rw [mapSet_keys]
  by_cases h : t.id ∈ m.map Prod.fst
  · rwa [if_pos h]
  · rw [if_neg h]
    simp [List.nodup_append, hm, h]

theorem mapSet_keys_toFinset (m : List (List Char × PrivateTransfer))
    (t : PrivateTransfer) :
    ((mapSet m t).map Prod.fst).toFinset =
      insert t.id (m.map Prod.fst).toFinset := by
  rw [mapSet_keys]
  by_cases h : t.id ∈ m.map Prod.fst
  · rw [if_pos h]
    exact (Finset.insert_eq_self.mpr (List.mem_toFinset.mpr h)).symm
  · rw [if_neg h]
    simp [List.toFinset_append, Finset.union_comm, (Finset.insert_eq _ _).symm]

theorem registerAll_aux (regs : List PrivateTransfer) :
    ∀ m : List (List Char × PrivateTransfer), (m.map Prod.fst).Nodup →
      (regs.foldl mapSet m).length =
        ((m.map Prod.fst).toFinset ∪ (regs.map PrivateTransfer.id).toFinset).card := by
  induction regs with
  | nil =>
    intro m hm
    have hlen : (m.map Prod.fst).toFinset.card = m.length := by
      rw [List.toFinset_card_of_nodup hm, List.length_map]
    simp [hlen]
  | cons t regs ih =>
    intro m hm
    rw [List.foldl_cons, ih (mapSet m t) (mapSet_keys_nodup m t hm),
      mapSet_keys_toFinset]
    congr 1
    simp [Finset.insert_union, Finset.union_insert]

theorem getPrivacyStats_registerAll (regs : List PrivateTransfer) :
    getPrivacyStats (registerAll regs) =
      ((regs.map PrivateTransfer.id).toFinset.card, 0) := by
  unfold getPrivacyStats registerAll
  rw [registerAll_aux regs [] (by simp)]
  simp

/-- Claim C10: after any sequence of `registerPrivateTransfer` calls,
`getPrivacyStats` reports `totalVolume = 0` and `totalPrivateTransfers`
equal to the number of distinct registered ids; two registries agreeing
on the multiset of ids — whatever their amounts, memos, addresses or
timestamps — produce identical stats. -/
theorem c10_stats_depend_only_on_ids (regs1 regs2 : List PrivateTransfer)
    (hids : (regs1.map PrivateTransfer.id : Multiset (List Char)) =
      (regs2.map PrivateTransfer.id : Multiset (List Char))) :
    getPrivacyStats (registerAll regs1) = getPrivacyStats (registerAll regs2) ∧
    getPrivacyStats (registerAll regs1) =
      ((regs1.map PrivateTransfer.id).toFinset.card, 0) := by
  have h2 := getPrivacyStats_registerAll regs1
  have h3 := getPrivacyStats_registerAll regs2
  have hfin : (regs1.map PrivateTransfer.id).toFinset =
      (regs2.map PrivateTransfer.id).toFinset := by
    have hco := congrArg Multiset.toFinset hids
    simpa using hco
  exact ⟨by rw [h2, h3, hfin], h2⟩

theorem c10_stats_witness :
    getPrivacyStats (registerAll c10regsA) = getPrivacyStats (registerAll c10regsB) ∧
    getPrivacyStats (registerAll c10regsA) =
      ((c10regsA.map PrivateTransfer.id).toFinset.card, 0) :=
  c10_stats_depend_only_on_ids c10regsA c10regsB (by rfl)
